import Mathlib

/-!
Verification of `du.c`, a small recursive disk-usage reporter.

The program has two components:
* an inode tracker (`visited_inodes`, `addInode`, `isInodeVisited`): a growable
  array of inode numbers already counted, with linear-scan membership;
* a directory walker (`getFileSize`, `getDirectorySize`, `main`): a depth-first
  recursive traversal that classifies each directory entry by name and by the
  `lstat` file kind, accumulates block counts (divided by 2 into reporting
  units), deduplicates multiply-linked regular files through the tracker, and
  prints `(size, path)` lines children-before-parent.

We shallowly embed the program: the filesystem is a finite tree (`FsNode`),
`lstat` answers are read off the tree node of each entry (matching `lstat`,
which does not follow symbolic links: a symlink is an `other` node, never its
target), `readdir` yields the "." entry, the ".." entry and then the real
children, and printing is modelled by returning the list of emitted
`(size, path)` pairs in emission order.
-/

/-- A node of the filesystem tree, as seen through `lstat`:
a directory with its own `st_blocks` and its (non-"."/"..") child entries,
a regular file with `st_blocks`, `st_nlink` and `st_ino`,
or any other kind of entry (symlink, device, socket, ...), which `du.c`
never counts, reports or recurses into, so no metadata of it is consulted. -/
inductive FsNode where
  | dir (blocks : Nat) (children : List (String × FsNode)) : FsNode
  | reg (blocks : Nat) (nlink : Nat) (ino : Nat) : FsNode
  | other : FsNode

/-- The `st_blocks` field reported by `lstat` for a node (an `other` node's
block count is never read by the program, so it is modelled as 0). -/
def st_blocks : FsNode → Nat
  | .dir b _ => b
  | .reg b _ _ => b
  | .other => 0

/-- `isInodeVisited` (du.c:55-61): linear scan of the recorded inode numbers,
returning TRUE iff `inode` is among them. The walker-level state is the list
of recorded inodes `arr[0..num)` in insertion order. -/
def isInodeVisited : List Nat → Nat → Bool
  | [], _ => false
  | x :: rest, inode => if inode = x then true else isInodeVisited rest inode

/-- `addInode` (du.c:36-49), at the level of the recorded-inode sequence:
writes `inode` at position `num` and increments `num`, i.e. appends it.
(The capacity-doubling reallocation is modelled separately by `addInodeG`;
cells beyond `num` are never read by `isInodeVisited`.) -/
def addInode (visited : List Nat) (inode : Nat) : List Nat :=
  visited ++ [inode]

/-- `getFileSize` (du.c:99-106): for a regular file, if `st_nlink > 1` then
consult the visited set — return 0 if already visited, otherwise record the
inode; in every non-deduplicated case return `st_blocks / 2`.
Returns the contributed size together with the updated visited state. -/
def getFileSize (blocks nlink ino : Nat) (visited : List Nat) : Nat × List Nat :=
  if nlink > 1 then
    if isInodeVisited visited ino then (0, visited)
    else (blocks / 2, addInode visited ino)
  else (blocks / 2, visited)

/-- Result of one `getDirectorySize` call: the returned total, the final
visited-inode state, and the `(size, path)` lines printed during the call,
in emission order. -/
structure DuResult where
  total : Nat
  visited : List Nat
  out : List (Nat × String)
deriving Repr, DecidableEq

mutual

/-- Termination weight of a node: a directory weighs more than the scan list
its recursion is run on. -/
def nodeW : FsNode → Nat
  | .dir _ cs => 3 + listW cs
  | .reg _ _ _ => 0
  | .other => 0

/-- Termination weight of a scan list. An entry named "." or ".." weighs 1
no matter which node it carries, because the loop dispatches on the name
before ever looking at the node. -/
def listW : List (String × FsNode) → Nat
  | [] => 0
  | (name, n) :: rest =>
      (if name = "." ∨ name = ".." then 1 else 1 + nodeW n) + listW rest

end

/-- The `readdir` loop of `getDirectorySize` (du.c:123-154), over the list of
entries still to be scanned. Each entry is its name paired with the tree node
its `lstat` metadata comes from. Following du.c:
".." is skipped by name before anything else; "." adds the stat-ed entry's
`st_blocks / 2` and continues without reporting; a directory entry recurses
(on the scan list `"." :: ".." :: children` that `readdir` yields for it),
prints the subtotal and adds it; a regular file adds its `getFileSize`
contribution and prints it only when `all_files` is set; any other entry is
ignored. -/
def duLoop (af : Bool) : String → List (String × FsNode) → List Nat → DuResult
  | _, [], v => ⟨0, v, []⟩
  | path, (name, node) :: rest, v =>
    if name = ".." then duLoop af path rest v
    else
      let currPath := path ++ "/" ++ name
      if name = "." then
        let r := duLoop af path rest v
        ⟨st_blocks node / 2 + r.total, r.visited, r.out⟩
      else
        match node with
        | .dir b cs =>
          let rsub := duLoop af currPath ((".", .dir b cs) :: ("..", .other) :: cs) v
          let r := duLoop af path rest rsub.visited
          ⟨rsub.total + r.total, r.visited, rsub.out ++ (rsub.total, currPath) :: r.out⟩
        | .reg b nl ino =>
          let p := getFileSize b nl ino v
          let r := duLoop af path rest p.2
          ⟨p.1 + r.total, r.visited, (if af then [(p.1, currPath)] else []) ++ r.out⟩
        | .other => duLoop af path rest v
termination_by _ es _ => listW es
decreasing_by
  all_goals simp_all [listW, nodeW]
  all_goals omega

/-- `getDirectorySize` (du.c:117-157) on a directory with own block count `b`
and child entries `cs`: run the scan loop on the entries `readdir` yields,
namely "." (whose `lstat` is the directory's own), ".." (whose metadata is
never consulted — it is skipped by name; any placeholder node is equivalent)
and then the children. -/
def getDirectorySize (path : String) (b : Nat) (cs : List (String × FsNode))
    (v : List Nat) (af : Bool) : DuResult :=
  duLoop af path ((".", .dir b cs) :: ("..", .other) :: cs) v

/-- The part of `main` (du.c:222-237) after option parsing and the existence
check: run `getDirectorySize` on the root with a freshly `calloc`-ed (empty)
visited set, then print the root's `(size, path)` line last. The value is the
full sequence of lines the run emits, in order. -/
def runDu (path : String) (b : Nat) (cs : List (String × FsNode)) (af : Bool) :
    List (Nat × String) :=
  let r := getDirectorySize path b cs [] af
  r.out ++ [(r.total, path)]

/-- Fuel-indexed variant of the scan loop, mirroring `duLoop` step for step
but spending one unit of fuel per loop activation and returning `none` when
fuel runs out. Used to state that the traversal terminates: some finite fuel
makes it converge to the total function's value. -/
def duLoopF (af : Bool) : Nat → String → List (String × FsNode) → List Nat →
    Option DuResult
  | 0, _, _, _ => none
  | fuel + 1, path, es, v =>
    match es with
    | [] => some ⟨0, v, []⟩
    | (name, node) :: rest =>
      if name = ".." then duLoopF af fuel path rest v
      else
        let currPath := path ++ "/" ++ name
        if name = "." then
          match duLoopF af fuel path rest v with
          | none => none
          | some r => some ⟨st_blocks node / 2 + r.total, r.visited, r.out⟩
        else
          match node with
          | .dir b cs =>
            match duLoopF af fuel currPath
                ((".", .dir b cs) :: ("..", .other) :: cs) v with
            | none => none
            | some rsub =>
              match duLoopF af fuel path rest rsub.visited with
              | none => none
              | some r =>
                some ⟨rsub.total + r.total, r.visited,
                  rsub.out ++ (rsub.total, currPath) :: r.out⟩
          | .reg b nl ino =>
            let p := getFileSize b nl ino v
            match duLoopF af fuel path rest p.2 with
            | none => none
            | some r =>
              some ⟨p.1 + r.total, r.visited,
                (if af then [(p.1, currPath)] else []) ++ r.out⟩
          | .other => duLoopF af fuel path rest v

/-- The full paths of all directory entries classified as directories anywhere
below a scan list (entries named "." or ".." are skipped, as the loop skips
them by name). Used to state which paths may appear as report lines. -/
def dirPathsL (path : String) : List (String × FsNode) → List String
  | [] => []
  | (name, .dir _ cs) :: rest =>
    if name = "." ∨ name = ".." then dirPathsL path rest
    else
      (path ++ "/" ++ name) ::
        (dirPathsL (path ++ "/" ++ name) cs ++ dirPathsL path rest)
  | (_, .reg _ _ _) :: rest => dirPathsL path rest
  | (_, .other) :: rest => dirPathsL path rest

/-- `INODES_CAPACITY` (du.c:20): the fixed initial capacity of the tracker. -/
def INODES_CAPACITY : Nat := 16

/-- The `visited_inodes` struct (du.c:23-27): number of inodes stored, current
capacity, and the backing array (`arr` models the allocated region, so its
length is the capacity; cells at indices ≥ `num` are never read). -/
structure VisitedInodes where
  num : Nat
  cap : Nat
  arr : List Nat
deriving Repr, DecidableEq

/-- The tracker state `main` builds (du.c:224-226): zero stored inodes,
capacity `INODES_CAPACITY`, backing array `calloc`-ed (all zero). -/
def initVisited : VisitedInodes :=
  ⟨0, INODES_CAPACITY, List.replicate INODES_CAPACITY 0⟩

/-- `addInode` (du.c:36-49) at the memory level: store `inode` at index `num`
and increment `num`; if `num` then equals the capacity, double the capacity
and `realloc`. `reallocOk` says whether that `realloc` succeeds; on failure
the process exits with status 1, modelled as `Except.error 1`. The cells the
`realloc` adds are uninitialized; they are modelled as 0 and never read. -/
def addInodeG (visited : VisitedInodes) (inode : Nat) (reallocOk : Bool) :
    Except Nat VisitedInodes :=
  let arr1 := visited.arr.set visited.num inode
  let num1 := visited.num + 1
  if num1 = visited.cap then
    if reallocOk then
      Except.ok ⟨num1, visited.cap * 2, arr1 ++ List.replicate visited.cap 0⟩
    else Except.error 1
  else Except.ok ⟨num1, visited.cap, arr1⟩

/-! ### Case-unfolding lemmas for the scan loop -/

theorem duLoop_nil (af : Bool) (path : String) (v : List Nat) :
    duLoop af path [] v = ⟨0, v, []⟩ := by
  rw [duLoop]

theorem duLoop_dotdot (af : Bool) (path : String) (node : FsNode)
    (rest : List (String × FsNode)) (v : List Nat) :
    duLoop af path (("..", node) :: rest) v = duLoop af path rest v := by
  rw [duLoop]
  simp

theorem duLoop_dot (af : Bool) (path : String) (node : FsNode)
    (rest : List (String × FsNode)) (v : List Nat) :
    duLoop af path ((".", node) :: rest) v =
      ⟨st_blocks node / 2 + (duLoop af path rest v).total,
       (duLoop af path rest v).visited, (duLoop af path rest v).out⟩ := by
  rw [duLoop]
  simp

theorem duLoop_dir (af : Bool) (path name : String) (b : Nat)
    (cs rest : List (String × FsNode)) (v : List Nat)
    (h1 : name ≠ ".") (h2 : name ≠ "..") :
    duLoop af path ((name, .dir b cs) :: rest) v =
      ⟨(getDirectorySize (path ++ "/" ++ name) b cs v af).total +
         (duLoop af path rest
           (getDirectorySize (path ++ "/" ++ name) b cs v af).visited).total,
       (duLoop af path rest
         (getDirectorySize (path ++ "/" ++ name) b cs v af).visited).visited,
       (getDirectorySize (path ++ "/" ++ name) b cs v af).out ++
         ((getDirectorySize (path ++ "/" ++ name) b cs v af).total,
           path ++ "/" ++ name) ::
           (duLoop af path rest
             (getDirectorySize (path ++ "/" ++ name) b cs v af).visited).out⟩ := by
  rw [duLoop]
  simp [h1, h2, getDirectorySize]

theorem duLoop_reg (af : Bool) (path name : String) (b nl ino : Nat)
    (rest : List (String × FsNode)) (v : List Nat)
    (h1 : name ≠ ".") (h2 : name ≠ "..") :
    duLoop af path ((name, .reg b nl ino) :: rest) v =
      ⟨(getFileSize b nl ino v).1 +
         (duLoop af path rest (getFileSize b nl ino v).2).total,
       (duLoop af path rest (getFileSize b nl ino v).2).visited,
       (if af then [((getFileSize b nl ino v).1, path ++ "/" ++ name)] else []) ++
         (duLoop af path rest (getFileSize b nl ino v).2).out⟩ := by
  rw [duLoop]
  simp [h1, h2]

theorem duLoop_other (af : Bool) (path name : String)
    (rest : List (String × FsNode)) (v : List Nat)
    (h1 : name ≠ ".") (h2 : name ≠ "..") :
    duLoop af path ((name, .other) :: rest) v = duLoop af path rest v := by
  rw [duLoop]
  simp [h1, h2]

/-! ### Facts about the inode tracker as used by the walker -/

theorem isInodeVisited_eq_true (v : List Nat) (i : Nat) :
    isInodeVisited v i = true ↔ i ∈ v := by
  induction v with
  | nil => simp [isInodeVisited]
  | cons x rest ih => by_cases h : i = x <;> simp [isInodeVisited, h, ih]

theorem getFileSize_visited_ext (b nl ino : Nat) (v : List Nat) :
    ∃ ext, (getFileSize b nl ino v).2 = v ++ ext := by
  by_cases h1 : nl > 1
  · by_cases h2 : isInodeVisited v ino
    · exact ⟨[], by simp [getFileSize, h1, h2]⟩
    · exact ⟨[ino], by simp [getFileSize, h1, h2, addInode]⟩
  · exact ⟨[], by simp [getFileSize, h1]⟩

theorem getFileSize_nodup (b nl ino : Nat) (v : List Nat) (h : v.Nodup) :
    ((getFileSize b nl ino v).2).Nodup := by
  by_cases h1 : nl > 1
  · by_cases h2 : isInodeVisited v ino
    · simpa [getFileSize, h1, h2] using h
    · have hmem : ino ∉ v := by
        intro hm
        rw [← isInodeVisited_eq_true] at hm
        simp [hm] at h2
      simp [getFileSize, h1, h2, addInode, List.nodup_append, h, hmem]
  · simpa [getFileSize, h1] using h

/-! ### The visited set only grows along the traversal, and stays duplicate-free -/

theorem duLoop_visited_ext (af : Bool) (p : String) (es : List (String × FsNode))
    (v : List Nat) : ∃ ext, (duLoop af p es v).visited = v ++ ext := by
  induction p, es, v using duLoop.induct af
  case case1 p v => exact ⟨[], by simp [duLoop_nil]⟩
  case case2 p node rest v ih => simpa [duLoop_dotdot] using ih
  case case3 p node rest v hne ih => simpa [duLoop_dot] using ih
  case case4 p name rest v h2 cp h1 b cs rsub ih0 ih1 ih2 =>
    rw [duLoop_dir af p name b cs rest v h1 h2]
    obtain ⟨e1, he1⟩ := ih1
    obtain ⟨e2, he2⟩ := ih2
    refine ⟨e1 ++ e2, ?_⟩
    simp only [getDirectorySize] at *
    rw [he2, he1, List.append_assoc]
  case case5 p name rest v h2 h1 b nl ino pp ih =>
    rw [duLoop_reg af p name b nl ino rest v h1 h2]
    obtain ⟨e0, he0⟩ := getFileSize_visited_ext b nl ino v
    obtain ⟨e1, he1⟩ := ih
    exact ⟨e0 ++ e1, by rw [he1, he0, List.append_assoc]⟩
  case case6 p name rest v h2 h1 ih =>
    rw [duLoop_other af p name rest v h1 h2]
    exact ih

theorem duLoop_visited_mem (af : Bool) (p : String) (es : List (String × FsNode))
    (v : List Nat) (i : Nat) (hi : i ∈ v) : i ∈ (duLoop af p es v).visited := by
  obtain ⟨e, he⟩ := duLoop_visited_ext af p es v
  rw [he]
  exact List.mem_append_left e hi

theorem duLoop_visited_nodup (af : Bool) (p : String) (es : List (String × FsNode))
    (v : List Nat) : v.Nodup → (duLoop af p es v).visited.Nodup := by
  induction p, es, v using duLoop.induct af
  case case1 p v => intro h; simpa [duLoop_nil] using h
  case case2 p node rest v ih => intro h; rw [duLoop_dotdot]; exact ih h
  case case3 p node rest v hne ih => intro h; rw [duLoop_dot]; exact ih h
  case case4 p name rest v h2 cp h1 b cs rsub ih0 ih1 ih2 =>
    intro h
    rw [duLoop_dir af p name b cs rest v h1 h2]
    exact ih2 (ih1 h)
  case case5 p name rest v h2 h1 b nl ino pp ih =>
    intro h
    rw [duLoop_reg af p name b nl ino rest v h1 h2]
    exact ih (getFileSize_nodup b nl ino v h)
  case case6 p name rest v h2 h1 ih =>
    intro h
    rw [duLoop_other af p name rest v h1 h2]
    exact ih h

/-! ### The reporting flag never influences totals or the visited set -/

theorem duLoop_flag_eq (p : String) (es : List (String × FsNode)) (v : List Nat) :
    (duLoop true p es v).total = (duLoop false p es v).total ∧
      (duLoop true p es v).visited = (duLoop false p es v).visited := by
  induction p, es, v using duLoop.induct true
  case case1 p v => simp [duLoop_nil]
  case case2 p node rest v ih => simpa [duLoop_dotdot] using ih
  case case3 p node rest v hne ih =>
    rw [duLoop_dot true p node rest v, duLoop_dot false p node rest v]
    exact ⟨by simp [ih.1], by simp [ih.2]⟩
  case case4 p name rest v h2 cp h1 b cs rsub ih0 ih1 ih2 =>
    rw [duLoop_dir true p name b cs rest v h1 h2,
      duLoop_dir false p name b cs rest v h1 h2]
    simp only [getDirectorySize] at *
    constructor
    · rw [← ih1.1, ← ih1.2, ih2.1]
    · rw [← ih1.2]
      exact ih2.2
  case case5 p name rest v h2 h1 b nl ino pp ih =>
    rw [duLoop_reg true p name b nl ino rest v h1 h2,
      duLoop_reg false p name b nl ino rest v h1 h2]
    exact ⟨by simp [ih.1], by simp [ih.2]⟩
  case case6 p name rest v h2 h1 ih =>
    rw [duLoop_other true p name rest v h1 h2,
      duLoop_other false p name rest v h1 h2]
    exact ih

/-! ### With the flag off, only directory paths are ever reported -/

theorem dirPathsL_cons_skip (p name : String) (n : FsNode)
    (rest : List (String × FsNode)) (h : name = "." ∨ name = "..") :
    dirPathsL p ((name, n) :: rest) = dirPathsL p rest := by
  cases n <;> simp [dirPathsL, h]

theorem duLoop_out_dirPaths (p : String) (es : List (String × FsNode))
    (v : List Nat) : ∀ l ∈ (duLoop false p es v).out, l.2 ∈ dirPathsL p es := by
  induction p, es, v using duLoop.induct false
  case case1 p v => simp [duLoop_nil]
  case case2 p node rest v ih =>
    rw [duLoop_dotdot, dirPathsL_cons_skip p ".." node rest (Or.inr rfl)]
    exact ih
  case case3 p node rest v hne ih =>
    rw [duLoop_dot, dirPathsL_cons_skip p "." node rest (Or.inl rfl)]
    exact ih
  case case4 p name rest v h2 cp h1 b cs rsub ih0 ih1 ih2 =>
    rw [duLoop_dir false p name b cs rest v h1 h2]
    intro l hl
    simp only [getDirectorySize] at ih1 ih2
    simp only [List.mem_append, List.mem_cons] at hl
    simp only [dirPathsL, h1, h2, or_self, if_false, List.mem_cons, List.mem_append]
    rcases hl with hl | hl | hl
    · have := ih1 l hl
      simp only [dirPathsL] at this
      exact Or.inr (Or.inl (by simpa using this))
    · exact Or.inl (by rw [hl])
    · exact Or.inr (Or.inr (ih2 l hl))
  case case5 p name rest v h2 h1 b nl ino pp ih =>
    rw [duLoop_reg false p name b nl ino rest v h1 h2]
    intro l hl
    simp only [if_neg, List.nil_append] at hl
    have := ih l (by simpa using hl)
    simpa [dirPathsL, h1, h2] using this
  case case6 p name rest v h2 h1 ih =>
    rw [duLoop_other false p name rest v h1 h2]
    intro l hl
    simpa [dirPathsL, h1, h2] using ih l hl

/-! ### The fuelled loop converges to the total one: the traversal terminates -/

theorem duLoopF_converges (af : Bool) (p : String) (es : List (String × FsNode))
    (v : List Nat) :
    ∀ n, listW es + 1 ≤ n → duLoopF af n p es v = some (duLoop af p es v) := by
  induction p, es, v using duLoop.induct af
  case case1 p v =>
    intro n hn
    obtain ⟨m, rfl⟩ : ∃ m, n = m + 1 := ⟨n - 1, by omega⟩
    simp [duLoopF, duLoop_nil]
  case case2 p node rest v ih =>
    intro n hn
    obtain ⟨m, rfl⟩ : ∃ m, n = m + 1 := ⟨n - 1, by omega⟩
    have hm : listW rest + 1 ≤ m := by
      simp only [listW] at hn
      simp at hn
      omega
    simp [duLoopF, duLoop_dotdot, ih m hm]
  case case3 p node rest v hne ih =>
    intro n hn
    obtain ⟨m, rfl⟩ : ∃ m, n = m + 1 := ⟨n - 1, by omega⟩
    have hm : listW rest + 1 ≤ m := by
      simp only [listW] at hn
      simp at hn
      omega
    simp [duLoopF, duLoop_dot, ih m hm]
  case case4 p name rest v h2 cp h1 b cs rsub ih0 ih1 ih2 =>
    intro n hn
    obtain ⟨m, rfl⟩ : ∃ m, n = m + 1 := ⟨n - 1, by omega⟩
    have hw : (if name = "." ∨ name = ".." then 1 else 1 + nodeW (.dir b cs)) =
        1 + (3 + listW cs) := by
      simp [h1, h2, nodeW]
    have hn' : 4 + listW cs + listW rest + 1 ≤ m + 1 := by
      simp only [listW, hw] at hn
      omega
    have hsub : listW ((".", FsNode.dir b cs) :: ("..", FsNode.other) :: cs) + 1 ≤ m := by
      simp only [listW]
      simp
      omega
    have hrest : listW rest + 1 ≤ m := by omega
    simp only [duLoopF, h1, h2, if_false, if_neg, ite_false]
    rw [duLoop_dir af p name b cs rest v h1 h2]
    simp only [getDirectorySize] at ih1 ih2 ⊢
    simp [h1, h2, ih1 m hsub, ih2 m hrest]
  case case5 p name rest v h2 h1 b nl ino pp ih =>
    intro n hn
    obtain ⟨m, rfl⟩ : ∃ m, n = m + 1 := ⟨n - 1, by omega⟩
    have hm : listW rest + 1 ≤ m := by
      simp only [listW] at hn
      have : (if name = "." ∨ name = ".." then 1 else 1 + nodeW (.reg b nl ino)) = 1 := by
        simp [h1, h2, nodeW]
      rw [this] at hn
      omega
    rw [duLoop_reg af p name b nl ino rest v h1 h2]
    simp [duLoopF, h1, h2, ih m hm]
  case case6 p name rest v h2 h1 ih =>
    intro n hn
    obtain ⟨m, rfl⟩ : ∃ m, n = m + 1 := ⟨n - 1, by omega⟩
    have hm : listW rest + 1 ≤ m := by
      simp only [listW] at hn
      have : (if name = "." ∨ name = ".." then 1 else 1 + nodeW FsNode.other) = 1 := by
        simp [h1, h2, nodeW]
      rw [this] at hn
      omega
    rw [duLoop_other af p name rest v h1 h2]
    simp [duLoopF, h1, h2, ih m hm]

/-! ## The claims -/

/-- C1: for every traversal and every regular file with link count > 1 that is
reachable via several paths, the allocation size is added exactly once: the
first `getFileSize` call for its inode returns the size and records the inode
(which then satisfies the membership test), every later call for a now-visited
inode returns 0 and changes nothing, visited inodes stay visited across any
further `getDirectorySize` traversal, and no inode is ever added twice — a
duplicate-free visited set stays duplicate-free through a whole traversal. -/
theorem C1_hardlink_counted_once (b nl ino : Nat) (v : List Nat)
    (path : String) (db : Nat) (cs : List (String × FsNode)) (af : Bool)
    (hnl : 1 < nl) :
    (isInodeVisited v ino = false →
      getFileSize b nl ino v = (b / 2, v ++ [ino]) ∧
        isInodeVisited (v ++ [ino]) ino = true) ∧
    (isInodeVisited v ino = true → getFileSize b nl ino v = (0, v)) ∧
    (ino ∈ v →
      isInodeVisited (getDirectorySize path db cs v af).visited ino = true) ∧
    (v.Nodup → (getDirectorySize path db cs v af).visited.Nodup) := by
  refine ⟨fun h => ⟨by simp [getFileSize, hnl, h, addInode], ?_⟩,
    fun h => by simp [getFileSize, hnl, h], fun h => ?_, fun h => ?_⟩
  · exact isInodeVisited_eq_true (v ++ [ino]) ino |>.mpr (by simp)
  · exact isInodeVisited_eq_true _ ino |>.mpr
      (duLoop_visited_mem af path _ v ino h)
  · exact duLoop_visited_nodup af path _ v h

theorem C1_witness :
    (isInodeVisited [] 5 = false →
      getFileSize 4 2 5 [] = (4 / 2, [] ++ [5]) ∧
        isInodeVisited ([] ++ [5]) 5 = true) ∧
    (isInodeVisited [] 5 = true → getFileSize 4 2 5 [] = (0, [])) ∧
    (5 ∈ ([] : List Nat) →
      isInodeVisited (getDirectorySize "d" 2 [] [] false).visited 5 = true) ∧
    (([] : List Nat).Nodup → (getDirectorySize "d" 2 [] [] false).visited.Nodup) :=
  C1_hardlink_counted_once 4 2 5 [] "d" 2 [] false (by decide)

/-- C2: the total returned by `getDirectorySize` is the directory's own
allocation size (contributed by the "." entry) plus the contribution of the
scan of its children, where a subdirectory child contributes its recursive
total, a regular-file child contributes its (possibly deduplicated)
`getFileSize` size, any other child contributes nothing, and the scan of an
empty child list contributes 0; in particular a directory with zero eligible
entries returns exactly its own allocation size (and no visited-state change
or output). -/
theorem C2_total_decomposition (path : String) (b : Nat)
    (cs rest cs' : List (String × FsNode)) (v : List Nat) (af : Bool)
    (name : String) (b' bl nl ino : Nat)
    (h1 : name ≠ ".") (h2 : name ≠ "..") :
    getDirectorySize path b [] v af = ⟨b / 2, v, []⟩ ∧
    (getDirectorySize path b cs v af).total = b / 2 + (duLoop af path cs v).total ∧
    (getDirectorySize path b cs v af).visited = (duLoop af path cs v).visited ∧
    (duLoop af path [] v).total = 0 ∧
    ((duLoop af path ((name, .dir b' cs') :: rest) v).total =
      (getDirectorySize (path ++ "/" ++ name) b' cs' v af).total +
        (duLoop af path rest
          (getDirectorySize (path ++ "/" ++ name) b' cs' v af).visited).total) ∧
    ((duLoop af path ((name, .reg bl nl ino) :: rest) v).total =
      (getFileSize bl nl ino v).1 +
        (duLoop af path rest (getFileSize bl nl ino v).2).total) ∧
    ((duLoop af path ((name, .other) :: rest) v).total =
      (duLoop af path rest v).total) := by
  refine ⟨?_, ?_, ?_, ?_, ?_, ?_, ?_⟩
  · rw [getDirectorySize, duLoop_dot, duLoop_dotdot, duLoop_nil]
    simp [st_blocks]
  · rw [getDirectorySize, duLoop_dot, duLoop_dotdot]
    simp [st_blocks]
  · rw [getDirectorySize, duLoop_dot, duLoop_dotdot]
  · rw [duLoop_nil]
  · rw [duLoop_dir af path name b' cs' rest v h1 h2]
  · rw [duLoop_reg af path name bl nl ino rest v h1 h2]
  · rw [duLoop_other af path name rest v h1 h2]

theorem C2_witness :
    getDirectorySize "d" 2 [] [] false = ⟨2 / 2, [], []⟩ ∧
    (getDirectorySize "d" 2 [("f", .reg 2 1 7)] [] false).total =
      2 / 2 + (duLoop false "d" [("f", .reg 2 1 7)] []).total ∧
    (getDirectorySize "d" 2 [("f", .reg 2 1 7)] [] false).visited =
      (duLoop false "d" [("f", .reg 2 1 7)] []).visited ∧
    (duLoop false "d" [] []).total = 0 ∧
    ((duLoop false "d" [("sub", .dir 1 [])] []).total =
      (getDirectorySize ("d" ++ "/" ++ "sub") 1 [] [] false).total +
        (duLoop false "d" []
          (getDirectorySize ("d" ++ "/" ++ "sub") 1 [] [] false).visited).total) ∧
    ((duLoop false "d" [("sub", .reg 4 2 9)] []).total =
      (getFileSize 4 2 9 []).1 +
        (duLoop false "d" [] (getFileSize 4 2 9 []).2).total) ∧
    ((duLoop false "d" [("sub", .other)] []).total =
      (duLoop false "d" [] []).total) :=
  C2_total_decomposition "d" 2 [("f", .reg 2 1 7)] [] [] [] false "sub" 1 4 2 9
    (by decide) (by decide)

/-- C3: the traversal terminates on every finite directory tree: for every
directory, some finite fuel makes the fuelled scan loop — which runs on the
scan list containing ".", ".." and the children, skips ".." and consumes "."
without recursion, and recurses only into subdirectory entries — converge to
the value of the total function `getDirectorySize`. -/
theorem C3_traversal_terminates (path : String) (b : Nat)
    (cs : List (String × FsNode)) (v : List Nat) (af : Bool) :
    ∃ fuel,
      duLoopF af fuel path ((".", FsNode.dir b cs) :: ("..", FsNode.other) :: cs) v =
        some (getDirectorySize path b cs v af) :=
  ⟨listW ((".", FsNode.dir b cs) :: ("..", FsNode.other) :: cs) + 1,
    duLoopF_converges af path _ v _ (le_refl _)⟩

/-- C5: in every scanned directory, the "." entry adds the stat-ed entry's
allocation size (`st_blocks / 2`, the directory's own, since its `lstat`
resolves to the directory) to the total without emitting a report line or
touching the visited set, and the ".." entry is skipped outright — the loop
state is exactly as if the entry were not there; consequently
`getDirectorySize` is its own allocation size plus its children's scan. -/
theorem C5_dot_and_dotdot (path : String) (node : FsNode)
    (rest : List (String × FsNode)) (v : List Nat) (af : Bool) (b : Nat)
    (cs : List (String × FsNode)) :
    duLoop af path (("..", node) :: rest) v = duLoop af path rest v ∧
    (duLoop af path ((".", node) :: rest) v).total =
      st_blocks node / 2 + (duLoop af path rest v).total ∧
    (duLoop af path ((".", node) :: rest) v).out = (duLoop af path rest v).out ∧
    (duLoop af path ((".", node) :: rest) v).visited =
      (duLoop af path rest v).visited ∧
    (getDirectorySize path b cs v af).total = b / 2 + (duLoop af path cs v).total := by
  refine ⟨duLoop_dotdot af path node rest v, ?_, ?_, ?_, ?_⟩
  · rw [duLoop_dot]
  · rw [duLoop_dot]
  · rw [duLoop_dot]
  · rw [getDirectorySize, duLoop_dot, duLoop_dotdot]
    simp [st_blocks]

/-- C6: a directory entry that is neither a directory nor a regular file
(symbolic link, device, socket, ...) leaves the loop state exactly as if the
entry were not scanned at all — zero contribution, no report line, no
recursion — for either value of the "all files" flag. (Classification uses
the entry's own `lstat` metadata, which does not follow symbolic links: in the
embedding a symlink is an `FsNode.other` leaf, never its target's node.) -/
theorem C6_other_entries_ignored (path name : String)
    (rest : List (String × FsNode)) (v : List Nat) (af : Bool)
    (h1 : name ≠ ".") (h2 : name ≠ "..") :
    duLoop af path ((name, .other) :: rest) v = duLoop af path rest v :=
  duLoop_other af path name rest v h1 h2

theorem C6_witness :
    duLoop true "d" [("lnk", .other), ("f", .reg 2 1 7)] [] =
      duLoop true "d" [("f", .reg 2 1 7)] [] :=
  C6_other_entries_ignored "d" "lnk" [("f", .reg 2 1 7)] [] true
    (by decide) (by decide)

/-- C8: a regular-file entry with link count ≤ 1 contributes its full
allocation size unconditionally and leaves the visited-inode state exactly as
it was — `getFileSize` returns `(st_blocks / 2, visited)` whatever the
visited set contains. -/
theorem C8_single_link_unconditional (b nl ino : Nat) (v : List Nat)
    (h : nl ≤ 1) : getFileSize b nl ino v = (b / 2, v) := by
  simp [getFileSize, Nat.not_lt.mpr h]

theorem C8_witness : getFileSize 6 1 5 [5, 9] = (6 / 2, [5, 9]) :=
  C8_single_link_unconditional 6 1 5 [5, 9] (by decide)

/-- C10: the "all files" flag influences only which report lines are emitted,
never the computation: for every starting directory and every initial visited
set, running with the flag on and off returns the same total and the same
final visited-inode state. -/
theorem C10_flag_noninterference (path : String) (b : Nat)
    (cs : List (String × FsNode)) (v : List Nat) :
    (getDirectorySize path b cs v true).total =
      (getDirectorySize path b cs v false).total ∧
    (getDirectorySize path b cs v true).visited =
      (getDirectorySize path b cs v false).visited := by
  simpa [getDirectorySize] using
    duLoop_flag_eq path ((".", .dir b cs) :: ("..", .other) :: cs) v

/-- C4: the emitted report lines are in depth-first children-before-parent
order: the whole run's output is the traversal's output followed by the root
line, so the root line is the last line of the run, and for every directory
entry scanned, all report lines produced beneath it appear as a block
immediately before its own `(subtotal, path)` line, followed by the lines of
the remaining siblings. -/
theorem C4_children_before_parent (path : String) (b b' : Nat)
    (cs rest cs' : List (String × FsNode)) (af : Bool) (v : List Nat)
    (name : String) (h1 : name ≠ ".") (h2 : name ≠ "..") :
    runDu path b cs af =
      (getDirectorySize path b cs [] af).out ++
        [((getDirectorySize path b cs [] af).total, path)] ∧
    (runDu path b cs af).getLast? =
      some ((getDirectorySize path b cs [] af).total, path) ∧
    ((duLoop af path ((name, .dir b' cs') :: rest) v).out =
      (getDirectorySize (path ++ "/" ++ name) b' cs' v af).out ++
        ((getDirectorySize (path ++ "/" ++ name) b' cs' v af).total,
          path ++ "/" ++ name) ::
          (duLoop af path rest
            (getDirectorySize (path ++ "/" ++ name) b' cs' v af).visited).out) := by
  refine ⟨rfl, ?_, ?_⟩
  · show ((getDirectorySize path b cs [] af).out ++
      [((getDirectorySize path b cs [] af).total, path)]).getLast? = _
    exact List.getLast?_concat _
  · rw [duLoop_dir af path name b' cs' rest v h1 h2]

theorem C4_witness :
    runDu "d" 2 [("sub", .dir 1 [])] false =
      (getDirectorySize "d" 2 [("sub", .dir 1 [])] [] false).out ++
        [((getDirectorySize "d" 2 [("sub", .dir 1 [])] [] false).total, "d")] ∧
    (runDu "d" 2 [("sub", .dir 1 [])] false).getLast? =
      some ((getDirectorySize "d" 2 [("sub", .dir 1 [])] [] false).total, "d") ∧
    ((duLoop false "d" [("sub", .dir 1 [])] []).out =
      (getDirectorySize ("d" ++ "/" ++ "sub") 1 [] [] false).out ++
        ((getDirectorySize ("d" ++ "/" ++ "sub") 1 [] [] false).total,
          "d" ++ "/" ++ "sub") ::
          (duLoop false "d" []
            (getDirectorySize ("d" ++ "/" ++ "sub") 1 [] [] false).visited).out) :=
  C4_children_before_parent "d" 2 1 [("sub", .dir 1 [])] [] [] false [] "sub"
    (by decide) (by decide)

/-- C7: with the "all files" flag off, every line the traversal emits carries
the path of a directory entry of the tree; with the flag on, a regular-file
entry is additionally reported with exactly its contributed size — and when
its inode was already counted (link count > 1 and already visited), that
reported contribution is 0. -/
theorem C7_flag_controls_reporting (path name : String) (b bl nl ino : Nat)
    (cs rest : List (String × FsNode)) (v : List Nat)
    (h1 : name ≠ ".") (h2 : name ≠ "..") :
    (∀ l ∈ (getDirectorySize path b cs v false).out, l.2 ∈ dirPathsL path cs) ∧
    ((duLoop true path ((name, .reg bl nl ino) :: rest) v).out =
      ((getFileSize bl nl ino v).1, path ++ "/" ++ name) ::
        (duLoop true path rest (getFileSize bl nl ino v).2).out) ∧
    (1 < nl → isInodeVisited v ino = true → (getFileSize bl nl ino v).1 = 0) := by
  refine ⟨?_, ?_, fun ha hb => by simp [getFileSize, ha, hb]⟩
  · intro l hl
    have h3 := duLoop_out_dirPaths path
      ((".", .dir b cs) :: ("..", .other) :: cs) v l
      (by simpa [getDirectorySize] using hl)
    rwa [dirPathsL_cons_skip _ _ _ _ (Or.inl rfl),
      dirPathsL_cons_skip _ _ _ _ (Or.inr rfl)] at h3
  · rw [duLoop_reg true path name bl nl ino rest v h1 h2]
    simp

theorem C7_witness :
    (∀ l ∈ (getDirectorySize "d" 2 [("f", .reg 4 2 9)] [9] false).out,
      l.2 ∈ dirPathsL "d" [("f", .reg 4 2 9)]) ∧
    ((duLoop true "d" [("f", .reg 4 2 9)] [9]).out =
      ((getFileSize 4 2 9 [9]).1, "d" ++ "/" ++ "f") ::
        (duLoop true "d" [] (getFileSize 4 2 9 [9]).2).out) ∧
    (1 < 2 → isInodeVisited [9] 9 = true → (getFileSize 4 2 9 [9]).1 = 0) :=
  C7_flag_controls_reporting "d" "f" 2 4 2 9 [("f", .reg 4 2 9)] [] [9]
    (by decide) (by decide)

/-- C9: the inode tracker's backing storage starts at the fixed capacity
`INODES_CAPACITY = 16`; `addInode` stores the inode and, exactly when the
store fills the array, doubles the capacity — preserving every previously
recorded inode and the one just stored — and if the reallocation during that
growth fails the call ends the process with exit status 1; in every other
situation the call succeeds, so growth-reallocation failure is the only
failure mode of the component. -/
theorem C9_tracker_growth (v : VisitedInodes) (i : Nat) (r : Bool)
    (hlen : v.arr.length = v.cap) (hnum : v.num < v.cap) :
    initVisited.cap = INODES_CAPACITY ∧ INODES_CAPACITY = 16 ∧
      initVisited.num = 0 ∧
    (v.num + 1 = v.cap →
      addInodeG v i true =
        Except.ok ⟨v.num + 1, v.cap * 2,
          (v.arr.set v.num i) ++ List.replicate v.cap 0⟩) ∧
    (v.num + 1 = v.cap → addInodeG v i false = Except.error 1) ∧
    (v.num + 1 ≠ v.cap →
      addInodeG v i r = Except.ok ⟨v.num + 1, v.cap, v.arr.set v.num i⟩) ∧
    (∀ w, addInodeG v i r = Except.ok w →
      (∀ j, j < v.num → w.arr[j]? = v.arr[j]?) ∧ w.arr[v.num]? = some i) ∧
    (∀ e, addInodeG v i r = Except.error e →
      v.num + 1 = v.cap ∧ r = false ∧ e = 1) := by
  have harr1len : (v.arr.set v.num i).length = v.cap := by
    rw [List.length_set, hlen]
  have hpres : ∀ j, j < v.num → (v.arr.set v.num i)[j]? = v.arr[j]? :=
    fun j hj => List.getElem?_set_ne (by omega)
  have hstored : (v.arr.set v.num i)[v.num]? = some i :=
    List.getElem?_set_self (by omega)
  refine ⟨rfl, rfl, rfl, fun h => by simp [addInodeG, h], fun h => by
    simp [addInodeG, h], fun h => by simp [addInodeG, h], ?_, ?_⟩
  · intro w hw
    by_cases hc : v.num + 1 = v.cap
    · cases r with
      | false => simp [addInodeG, hc] at hw
      | true =>
        simp only [addInodeG, hc, if_true, if_pos rfl, Except.ok.injEq] at hw
        subst hw
        refine ⟨fun j hj => ?_, ?_⟩
        · rw [List.getElem?_append_left (by omega), hpres j hj]
        · rw [List.getElem?_append_left (by omega), hstored]
    · simp only [addInodeG, hc, if_false, if_neg hc, Except.ok.injEq] at hw
      subst hw
      exact ⟨hpres, hstored⟩
  · intro e he
    by_cases hc : v.num + 1 = v.cap
    · cases r with
      | false =>
        simp [addInodeG, hc] at he
        exact ⟨hc, rfl, by omega⟩
      | true => simp [addInodeG, hc] at he
    · simp [addInodeG, hc] at he

theorem C9_witness :
    initVisited.cap = INODES_CAPACITY ∧ INODES_CAPACITY = 16 ∧
      initVisited.num = 0 ∧
    ((3 : Nat) + 1 = 4 →
      addInodeG ⟨3, 4, [9, 8, 7, 0]⟩ 5 true =
        Except.ok ⟨3 + 1, 4 * 2, ([9, 8, 7, 0].set 3 5) ++ List.replicate 4 0⟩) ∧
    ((3 : Nat) + 1 = 4 → addInodeG ⟨3, 4, [9, 8, 7, 0]⟩ 5 false = Except.error 1) ∧
    ((3 : Nat) + 1 ≠ 4 →
      addInodeG ⟨3, 4, [9, 8, 7, 0]⟩ 5 false =
        Except.ok ⟨3 + 1, 4, [9, 8, 7, 0].set 3 5⟩) ∧
    (∀ w, addInodeG ⟨3, 4, [9, 8, 7, 0]⟩ 5 false = Except.ok w →
      (∀ j, j < 3 → w.arr[j]? = [9, 8, 7, 0][j]?) ∧ w.arr[3]? = some 5) ∧
    (∀ e, addInodeG ⟨3, 4, [9, 8, 7, 0]⟩ 5 false = Except.error e →
      (3 : Nat) + 1 = 4 ∧ false = false ∧ e = 1) :=
  C9_tracker_growth ⟨3, 4, [9, 8, 7, 0]⟩ 5 false (by decide) (by decide)
